import Mathlib

/-!
Shallow embedding of the WiredTiger record store layer
(src/mongo/db/storage/wiredtiger/wiredtiger_record_store.cpp) and proofs
about its visibility rule, size counters, capped eviction, oplog stones,
cursor restore and point lookups.

Records are keyed by a 64-bit signed RecordId; we model it as Int (no
claim involves overflow).  The engine table is modelled as an association
list sorted by key.  Record data is a byte list whose length is the
record length.  Fallible operations return the store paired with an
Except value, so that the unchanged-state part of error claims is
expressible.  Division in the source is C++ int64 division (truncation
toward zero), modelled by Int.tdiv; every divisor/dividend the claims
touch is nonnegative, where Int.tdiv agrees with Euclidean division.
-/

namespace WTRS

/-- Byte string of a record, length = record length. -/
abbrev Bytes := List Nat

/-- Engine table: association list (key, value) kept sorted by key,
modelling the WiredTiger table keyed by int64 record ids. -/
abbrev Table := List (Int × Bytes)

/-- Error codes surfaced by the record store operations that the claims
mention.  InvariantFailure stands for a failed invariant / massert
(process-fatal in the source). -/
inductive ErrCode where
  | BadValue
  | IllegalOperation
  | InvariantFailure
deriving DecidableEq, Repr

/-- State of one WiredTigerRecordStore: configuration flags, the cached
size counters, the engine table, the uncommitted-id registry and the id
allocator.  hasOplogStones models the presence of the _oplogStones
object (set for oplog collections with the background reclaim thread). -/
structure WTStore where
  isCapped : Bool
  isOplog : Bool
  hasOplogStones : Bool
  useOplogHack : Bool
  cappedMaxSize : Int
  cappedMaxDocs : Int
  numRecords : Int
  dataSize : Int
  table : Table
  uncommittedDiskLocs : List Int
  oplogHighestSeen : Int
  nextIdNum : Int
deriving DecidableEq, Repr

/-- Point lookup in the engine table (WT_CURSOR::search). -/
def tableLookup : Table → Int → Option Bytes
  | [], _ => none
  | (k, d) :: rest, key => if k = key then some d else tableLookup rest key

/-- Sorted upsert into the engine table (WT_CURSOR::insert with
overwrite, as used by insertRecord and updateRecord). -/
def tableInsert : Table → Int → Bytes → Table
  | [], key, d => [(key, d)]
  | (k, v) :: rest, key, d =>
    if key < k then (key, d) :: (k, v) :: rest
    else if key = k then (key, d) :: rest
    else (k, v) :: tableInsert rest key d

/-- Remove a key from the engine table (WT_CURSOR::remove). -/
def tableRemove : Table → Int → Table
  | [], _ => []
  | (k, v) :: rest, key => if k = key then rest else (k, v) :: tableRemove rest key

/-- Keys of the table in order. -/
def tableKeys (t : Table) : List Int := t.map (fun p => p.1)

/-- WiredTigerRecordStore::_changeNumRecords.  The source does
fetchAndAdd(diff) (which returns the value BEFORE the addition) and, if
that prior value was negative, stores max(diff, 0). -/
def changeNumRecords (s : WTStore) (diff : Int) : WTStore :=
  let old := s.numRecords
  { s with numRecords := if old < 0 then max diff 0 else old + diff }

/-- WiredTigerRecordStore::_increaseDataSize.  Same lazy floor as
_changeNumRecords: the clamp fires only when the value before the
addition was already negative.  (The size-storer flush is not modelled;
it does not change the counter.) -/
def increaseDataSize (s : WTStore) (amount : Int) : WTStore :=
  let old := s.dataSize
  { s with dataSize := if old < 0 then max amount 0 else old + amount }

/-- WiredTigerRecordStore::isCappedHidden: a record id is hidden iff the
uncommitted-id list is nonempty and its front is <= the id. -/
def isCappedHidden (s : WTStore) (loc : Int) : Bool :=
  match s.uncommittedDiskLocs with
  | [] => false
  | f :: _ => decide (f ≤ loc)

/-- WiredTigerRecordStore::lowestCappedHiddenRecord: front of the
uncommitted-id list, or the null RecordId (0) when empty. -/
def lowestCappedHiddenRecord (s : WTStore) : Int :=
  match s.uncommittedDiskLocs with
  | [] => 0
  | f :: _ => f

/-- WiredTigerRecordStore::Cursor::isVisible.  readUntilForOplog is the
cursor's oplog read-till point; the null RecordId is 0. -/
def isVisible (s : WTStore) (readUntilForOplog : Int) (id : Int) : Bool :=
  if !s.isCapped then true
  else if readUntilForOplog = 0 || !s.isOplog then !(isCappedHidden s id)
  else if id = readUntilForOplog then !(isCappedHidden s id)
  else decide (id < readUntilForOplog)

/-- WiredTigerRecordStore::cappedAndNeedDelete. -/
def cappedAndNeedDelete (s : WTStore) : Bool :=
  if !s.isCapped then false
  else if s.cappedMaxSize ≤ s.dataSize then true
  else if s.cappedMaxDocs ≠ -1 && decide (s.cappedMaxDocs < s.numRecords) then true
  else false

/-- Scan loop of cappedDeleteAsNeeded_inlock.  Walks the table from the
front while (sizeSaved < sizeOverCap or docsRemoved < docsOverCap) and
docsRemoved < 20000, stopping before any key >= justInserted, and
returns the records that the loop counts for deletion (the shutdown
check is not modelled: these proofs are about a store that is not being
destroyed). -/
def evictLoop (justInserted sizeOverCap docsOverCap : Int) :
    Table → Int → Int → Table
  | [], _, _ => []
  | (k, d) :: rest, sizeSaved, docsRemoved =>
    if (sizeSaved < sizeOverCap ∨ docsRemoved < docsOverCap) ∧ docsRemoved < 20000 then
      if justInserted ≤ k then []
      else (k, d) :: evictLoop justInserted sizeOverCap docsOverCap rest
          (sizeSaved + (d.length : Int)) (docsRemoved + 1)
    else []

/-- Candidate records of one call of cappedDeleteAsNeeded_inlock. -/
def evictCandidates (s : WTStore) (justInserted : Int) : Table :=
  let dataSize := s.dataSize
  let numRecords := s.numRecords
  let sizeOverCap := if s.cappedMaxSize < dataSize then dataSize - s.cappedMaxSize else 0
  let docsOverCap :=
    if s.cappedMaxDocs ≠ -1 ∧ s.cappedMaxDocs < numRecords
    then numRecords - s.cappedMaxDocs else 0
  evictLoop justInserted sizeOverCap docsOverCap s.table 0 0

/-- WiredTigerRecordStore::cappedDeleteAsNeeded_inlock.  The counted
prefix is removed by one engine range-truncate from the first record to
the last counted record, then the counters are adjusted and the side
transaction commits.  Returns the new store and docsRemoved. -/
def cappedDeleteAsNeeded_inlock (s : WTStore) (justInserted : Int) : WTStore × Int :=
  let cands := evictCandidates s justInserted
  let docsRemoved : Int := cands.length
  let sizeSaved : Int := cands.foldl (fun acc p => acc + (p.2.length : Int)) 0
  if 0 < docsRemoved then
    let s1 := { s with table := s.table.drop cands.length }
    (increaseDataSize (changeNumRecords s1 (-docsRemoved)) (-sizeSaved), docsRemoved)
  else (s, 0)

/-- WiredTigerRecordStore::cappedDeleteAsNeeded, on the uncontended path
(the caller acquires the capped-deleter mutex; contention merely returns
0 without touching the store, which is covered by the docsRemoved = 0
branch of the inlock function). -/
def cappedDeleteAsNeeded (s : WTStore) (justInserted : Int) : WTStore × Int :=
  if !cappedAndNeedDelete s then (s, 0)
  else cappedDeleteAsNeeded_inlock s justInserted

/-- WiredTigerRecordStore::insertRecord.  extract models
oploghack::extractKey (external to this file); the commit/rollback hook
that later removes the uncommitted id is outside one call's footprint. -/
def insertRecord (extract : Bytes → Except ErrCode Int) (s : WTStore) (data : Bytes) :
    WTStore × Except ErrCode Int :=
  let len : Int := data.length
  if s.isCapped ∧ s.cappedMaxSize < len then
    (s, .error .BadValue)
  else
    let allocated : Except ErrCode (WTStore × Int) :=
      if s.useOplogHack then
        match extract data with
        | .error e => .error e
        | .ok loc =>
          .ok ({ s with oplogHighestSeen := max s.oplogHighestSeen loc }, loc)
      else if s.isCapped then
        let loc := s.nextIdNum
        .ok ({ s with
                 nextIdNum := s.nextIdNum + 1,
                 uncommittedDiskLocs := s.uncommittedDiskLocs ++ [loc],
                 oplogHighestSeen := loc }, loc)
      else
        .ok ({ s with nextIdNum := s.nextIdNum + 1 }, s.nextIdNum)
    match allocated with
    | .error e => (s, .error e)
    | .ok (s1, loc) =>
      let s2 := { s1 with table := tableInsert s1.table loc data }
      let s3 := increaseDataSize (changeNumRecords s2 1) len
      let s4 := if s.hasOplogStones then s3 else (cappedDeleteAsNeeded s3 loc).1
      (s4, .ok loc)

/-- WiredTigerRecordStore::deleteRecord.  none models the process-fatal
invariant failures (capped store, or key not found by the search). -/
def deleteRecord (s : WTStore) (loc : Int) : Option WTStore :=
  if s.isCapped then none
  else
    match tableLookup s.table loc with
    | none => none
    | some old =>
      some (increaseDataSize
        (changeNumRecords { s with table := tableRemove s.table loc } (-1))
        (-(old.length : Int)))

/-- WiredTigerRecordStore::updateRecord. -/
def updateRecord (s : WTStore) (loc : Int) (data : Bytes) : WTStore × Except ErrCode Int :=
  match tableLookup s.table loc with
  | none => (s, .error .InvariantFailure)
  | some old =>
    let oldLength : Int := old.length
    if s.hasOplogStones ∧ (data.length : Int) ≠ oldLength then
      (s, .error .IllegalOperation)
    else
      let s1 := { s with table := tableInsert s.table loc data }
      let s2 := increaseDataSize s1 ((data.length : Int) - oldLength)
      let s3 := if s.hasOplogStones then s2 else (cappedDeleteAsNeeded s2 loc).1
      (s3, .ok loc)

/-- WiredTigerRecordStore::truncate.  The third component records
whether a clear-stones commit hook (OplogStones::clearStonesOnCommit)
was registered by this call. -/
def truncate (s : WTStore) : WTStore × Except ErrCode Unit × Bool :=
  match s.table with
  | [] => (s, .ok (), false)
  | _ :: _ =>
    let s1 := { s with table := [] }
    let s2 := increaseDataSize (changeNumRecords s1 (-s.numRecords)) (-s.dataSize)
    (s2, .ok (), s.hasOplogStones)

/-- WiredTigerRecordStore::findRecord: none models the false return (the
out-parameter is written only on success). -/
def findRecord (s : WTStore) (loc : Int) : Option Bytes :=
  tableLookup s.table loc

/-- WiredTigerRecordStore::dataFor: a missing id fails massert 28556
(modelled as an error carrying that massert id). -/
def dataFor (s : WTStore) (loc : Int) : Except Nat Bytes :=
  match tableLookup s.table loc with
  | none => .error 28556
  | some d => .ok d

/-- WT_CURSOR::search_near on the ordered key list: lands on the nearest
key and reports cmp = 0 (exact), 1 (landed above the search key) or -1
(landed below); none models WT_NOTFOUND on an empty table.  On a sorted
list this choice (smallest key at or above the search key, else the
largest key) is one of the landings WiredTiger may report; the code
under proof handles any landing through the returned cmp. -/
def searchNear : List Int → Int → Option (Int × Int)
  | [], _ => none
  | x :: xs, key =>
    if key ≤ x then some (x, if x = key then 0 else 1)
    else
      match searchNear xs key with
      | some r => some r
      | none => some (x, -1)

/-- WT_CURSOR::prev from a cursor positioned at bound: the largest key
below bound, none when there is none (cursor becomes unpositioned). -/
def prevKey : List Int → Int → Option Int
  | [], _ => none
  | x :: xs, bound =>
    if x < bound then
      match prevKey xs bound with
      | some r => some r
      | none => some x
    else none

/-- WT_CURSOR::next from a cursor positioned at pos: the smallest key
above pos on a sorted key list. -/
def nextKeyAfter (keys : List Int) (pos : Int) : Option Int :=
  keys.find? (fun y => decide (pos < y))

/-- State of a WiredTigerRecordStore::Cursor.  position none models an
unpositioned engine cursor (a fresh cursor, or one whose prev/next fell
off the table); the null RecordId is 0. -/
structure CursorState where
  forward : Bool
  eof : Bool
  lastReturnedId : Int
  position : Option Int
  readUntilForOplog : Int
deriving DecidableEq, Repr

/-- WiredTigerRecordStore::Cursor::restore.  Returns the new cursor
state and the bool result.  The engine cursor is recreated and
search_near is run on lastReturnedId; cmp = 0 means we landed where we
left off; a miss on a capped store sets eof and returns false; a miss on
a normal store steps one position back (forward cursor landed above) or
forward (reverse cursor landed below) so that next() resumes with the
first unseen record. -/
def restore (s : WTStore) (cur : CursorState) : CursorState × Bool :=
  if cur.eof then (cur, true)
  else if cur.lastReturnedId = 0 then (cur, true)
  else
    match searchNear (tableKeys s.table) cur.lastReturnedId with
    | none => ({ cur with eof := true }, !s.isCapped)
    | some (landed, cmp) =>
      if cmp = 0 then ({ cur with position := some landed }, true)
      else if s.isCapped then ({ cur with eof := true }, false)
      else if cur.forward ∧ 0 < cmp then
        ({ cur with position := prevKey (tableKeys s.table) landed }, true)
      else if ¬cur.forward ∧ cmp < 0 then
        ({ cur with position := nextKeyAfter (tableKeys s.table) landed }, true)
      else ({ cur with position := some landed }, true)

/-- Key of the record that Cursor::next() of a forward cursor with a
non-null lastReturnedId would advance to: the table key right after the
current position (the first table key when unpositioned), none at eof. -/
def cursorNextKeyForward (s : WTStore) (cur : CursorState) : Option Int :=
  if cur.eof then none
  else
    match cur.position with
    | none => (tableKeys s.table).head?
    | some p => nextKeyAfter (tableKeys s.table) p

/-- Modelled from the spec: OplogStones::kRandomSamplesPerStone is
declared in wiredtiger_record_store_oplog_stones.h, which is missing
from the sources here; the spec fixes samplesPerStone = 10. -/
def kRandomSamplesPerStone : Int := 10

/-- wholeStones of OplogStones::_calculateStonesBySampling:
numRecords / estRecordsPerStone in C++ int64 division. -/
def wholeStones (numRecords estRecordsPerStone : Int) : Int :=
  Int.tdiv numRecords estRecordsPerStone

/-- numSamples of OplogStones::_calculateStonesBySampling: the C++
expression kRandomSamplesPerStone * numRecords / estRecordsPerStone
divides the full product (left-to-right), not wholeStones. -/
def numSamplesDrawn (numRecords estRecordsPerStone : Int) : Int :=
  Int.tdiv (kRandomSamplesPerStone * numRecords) estRecordsPerStone

/-- One oplog truncation marker. -/
structure Stone where
  records : Int
  bytes : Int
  lastRecord : Int
deriving DecidableEq, Repr, Inhabited

/-- Sorted insertion used to model std::sort of the drawn samples. -/
def insertSorted (x : Int) : List Int → List Int
  | [] => [x]
  | y :: ys => if x ≤ y then x :: y :: ys else y :: insertSorted x ys

/-- Ascending sort of the drawn samples (std::sort). -/
def sortInts : List Int → List Int
  | [] => []
  | x :: xs => insertSorted x (sortInts xs)

/-- OplogStones::_calculateStonesBySampling.  samples is the stream the
random cursor would yield; drawing stops after numSamples, and none
models the fallback to _calculateStonesByScanning when the cursor runs
dry before numSamples draws.  Returns the stones plus the leftover
(currentRecords, currentBytes) accumulators. -/
def calculateStonesBySampling (numRecords dataSize estRecordsPerStone estBytesPerStone : Int)
    (samples : List Int) : Option (List Stone × Int × Int) :=
  let whole := wholeStones numRecords estRecordsPerStone
  let numSamples := numSamplesDrawn numRecords estRecordsPerStone
  if (samples.length : Int) < numSamples then none
  else
    let oplogEstimates := sortInts (samples.take numSamples.toNat)
    let stones := (List.range whole.toNat).map (fun (j : Nat) =>
      let i : Int := (j : Int) + 1
      let sampleIndex := kRandomSamplesPerStone * i - 1
      ({ records := estRecordsPerStone, bytes := estBytesPerStone,
         lastRecord := oplogEstimates.getD sampleIndex.toNat 0 } : Stone))
    some (stones, numRecords - estRecordsPerStone * whole,
          dataSize - estBytesPerStone * whole)

/-- Visibility formula exactly as the specification words it (spec
invariant 1), for comparison against the code: visible iff the id is
not in UncommittedIds or is below UncommittedIds.front(); everything is
visible on a non-capped store. -/
def visibleSpecFormula (s : WTStore) (id : Int) : Bool :=
  if s.isCapped then
    decide (id ∉ s.uncommittedDiskLocs) ||
      (match s.uncommittedDiskLocs with
       | [] => false
       | f :: _ => decide (id < f))
  else true

/-! Concrete store states used by the counterexamples and witnesses. -/

/-- Non-capped store whose cached counters read zero while one record is
in the table (the size storer is loaded from cache at open and may be
stale; validate() documents and repairs exactly this drift). -/
def storeDriftedCounters : WTStore :=
  { isCapped := false, isOplog := false, hasOplogStones := false, useOplogHack := false,
    cappedMaxSize := -1, cappedMaxDocs := -1, numRecords := 0, dataSize := 0,
    table := [(1, [97])], uncommittedDiskLocs := [], oplogHighestSeen := 1, nextIdNum := 2 }

/-- Store with already-negative counters. -/
def storeNegativeCounters : WTStore :=
  { isCapped := false, isOplog := false, hasOplogStones := false, useOplogHack := false,
    cappedMaxSize := -1, cappedMaxDocs := -1, numRecords := -5, dataSize := -7,
    table := [], uncommittedDiskLocs := [], oplogHighestSeen := 0, nextIdNum := 1 }

/-- Capped size-bounded store with no document bound and nothing stored. -/
def storeCappedEmpty : WTStore :=
  { isCapped := true, isOplog := false, hasOplogStones := false, useOplogHack := false,
    cappedMaxSize := 100, cappedMaxDocs := -1, numRecords := 0, dataSize := 0,
    table := [], uncommittedDiskLocs := [], oplogHighestSeen := 0, nextIdNum := 1 }

/-- Capped store with a 3-byte size limit. -/
def storeCappedSmall : WTStore :=
  { isCapped := true, isOplog := false, hasOplogStones := false, useOplogHack := false,
    cappedMaxSize := 3, cappedMaxDocs := -1, numRecords := 0, dataSize := 0,
    table := [], uncommittedDiskLocs := [], oplogHighestSeen := 0, nextIdNum := 1 }

/-- Empty oplog store that owns OplogStones. -/
def storeOplogEmpty : WTStore :=
  { isCapped := true, isOplog := true, hasOplogStones := true, useOplogHack := true,
    cappedMaxSize := 100, cappedMaxDocs := -1, numRecords := 0, dataSize := 0,
    table := [], uncommittedDiskLocs := [], oplogHighestSeen := 0, nextIdNum := 1 }

/-! ## C1 — cursor visibility rule -/

/-- Capped store in which id 5 is uncommitted while id 7 (allocated by a
later writer that committed first) is already in the table. -/
def storeOutOfOrderCommit : WTStore :=
  { isCapped := true, isOplog := false, hasOplogStones := false, useOplogHack := false,
    cappedMaxSize := 100, cappedMaxDocs := -1, numRecords := 1, dataSize := 1,
    table := [(7, [1])], uncommittedDiskLocs := [5], oplogHighestSeen := 7, nextIdNum := 8 }

/-- C1 counterexample: id 7 is not in the uncommitted set {5}, so the
claimed formula makes it visible, but isCappedHidden hides every id at
or above the front of the uncommitted list, so the cursor does not see
it: the "k not in UncommittedIds" disjunct of the claim is wrong. -/
theorem visibility_formula_counterexample :
    visibleSpecFormula storeOutOfOrderCommit 7 = true ∧
    isVisible storeOutOfOrderCommit 0 7 = false := by decide

/-- C1 (amended): full characterization of Cursor::isVisible.  On a
non-capped store every id is visible.  On a capped store read without an
oplog read-till point (the point is null, or the store is not an oplog),
id k is visible iff the uncommitted list is empty or k is below its
front — membership of k itself in the list is irrelevant.  An oplog
cursor with read-till point r sees k iff k = r and k is not hidden, or
k < r. -/
theorem isVisible_characterization (s : WTStore) (r k : Int) :
    (s.isCapped = false → isVisible s r k = true) ∧
    (s.isCapped = true → (r = 0 ∨ s.isOplog = false) →
      (isVisible s r k = true ↔
        (s.uncommittedDiskLocs = [] ∨ k < s.uncommittedDiskLocs.headD 0))) ∧
    (s.isCapped = true → r ≠ 0 → s.isOplog = true →
      (isVisible s r k = true ↔
        ((k = r ∧ (s.uncommittedDiskLocs = [] ∨ k < s.uncommittedDiskLocs.headD 0)) ∨
          (k ≠ r ∧ k < r)))) := by
  unfold isVisible isCappedHidden
  refine ⟨fun hc => ?_, fun hc hr => ?_, fun hc hr ho => ?_⟩
  · simp [hc]
  · rcases hr with hr | hr <;>
      rcases hu : s.uncommittedDiskLocs with _ | ⟨f, rest⟩ <;>
      simp [hc, hr, hu]
  · rcases hu : s.uncommittedDiskLocs with _ | ⟨f, rest⟩ <;>
      by_cases hk : k = r <;>
      simp [hc, hr, ho, hu, hk]

/-- Witness for isVisible_characterization: on storeOutOfOrderCommit,
id 4 (below the uncommitted front 5) is visible to a plain capped
cursor. -/
theorem isVisible_characterization_witness :
    isVisible storeOutOfOrderCommit 0 4 = true := by
  have h := (isVisible_characterization storeOutOfOrderCommit 0 4).2.1 rfl (Or.inl rfl)
  exact h.mpr (Or.inr (by decide))

/-! ## C2 — floor of the size counters -/

/-- C2 counterexample: a single delete from a store whose cached
counters read zero (while the record is present in the table, as after
loading stale size-storer values) drives numRecords and dataSize to -1;
the decrement is NOT floored at zero, because _changeNumRecords and
_increaseDataSize test the value fetchAndAdd returns, i.e. the value
BEFORE the addition. -/
theorem counters_floor_counterexample :
    (deleteRecord storeDriftedCounters 1).map (fun s => (s.numRecords, s.dataSize)) =
      some (-1, -1) := by decide

/-- C2 (amended): the floor fires one change late.  A change that
observes an already-negative counter stores max(diff, 0), which is
nonnegative; a change that starts from a nonnegative counter adds its
delta un-floored, so a single over-decrement can leave the counter
negative until the next change. -/
theorem counters_floor_on_next_change (s : WTStore) (diff amount : Int) :
    (s.numRecords < 0 →
      (changeNumRecords s diff).numRecords = max diff 0 ∧
      0 ≤ (changeNumRecords s diff).numRecords) ∧
    (0 ≤ s.numRecords → (changeNumRecords s diff).numRecords = s.numRecords + diff) ∧
    (s.dataSize < 0 →
      (increaseDataSize s amount).dataSize = max amount 0 ∧
      0 ≤ (increaseDataSize s amount).dataSize) ∧
    (0 ≤ s.dataSize → (increaseDataSize s amount).dataSize = s.dataSize + amount) := by
  unfold changeNumRecords increaseDataSize
  refine ⟨fun h => ?_, fun h => ?_, fun h => ?_, fun h => ?_⟩ <;> simp only
  · rw [if_pos h]; exact ⟨rfl, le_max_right _ _⟩
  · rw [if_neg (by omega)]
  · rw [if_pos h]; exact ⟨rfl, le_max_right _ _⟩
  · rw [if_neg (by omega)]

/-- Witness for counters_floor_on_next_change at a concrete store with
numRecords = -5 and dataSize = -7. -/
theorem counters_floor_on_next_change_witness :
    (changeNumRecords storeNegativeCounters (-2)).numRecords = 0 ∧
    (increaseDataSize storeNegativeCounters 4).dataSize = 4 := by
  have h := counters_floor_on_next_change storeNegativeCounters (-2) 4
  refine ⟨?_, ?_⟩
  · rw [(h.1 (by decide)).1]; decide
  · rw [(h.2.2.1 (by decide)).1]; decide

/-! ## C3 — eviction never reaches justInserted -/

/-- The eviction scan returns a prefix of the table: it consumes records
from the front and stops. -/
theorem evictLoop_eq_take (just so doc : Int) :
    ∀ (t : Table) (ss dr : Int), ∃ n, evictLoop just so doc t ss dr = t.take n := by
  intro t
  induction t with
  | nil => intro ss dr; exact ⟨0, rfl⟩
  | cons p rest ih =>
    intro ss dr
    obtain ⟨k, d⟩ := p
    unfold evictLoop
    by_cases h1 : (ss < so ∨ dr < doc) ∧ dr < 20000
    · rw [if_pos h1]
      by_cases h2 : just ≤ k
      · rw [if_pos h2]; exact ⟨0, rfl⟩
      · rw [if_neg h2]
        obtain ⟨n, hn⟩ := ih (ss + (d.length : Int)) (dr + 1)
        exact ⟨n + 1, by simp [hn]⟩
    · rw [if_neg h1]; exact ⟨0, rfl⟩

/-- Every record the eviction scan counts has id strictly below
justInserted: the scan breaks as soon as it reads a key at or past it. -/
theorem evictLoop_lt_just (just so doc : Int) :
    ∀ (t : Table) (ss dr : Int) (p : Int × Bytes),
      p ∈ evictLoop just so doc t ss dr → p.1 < just := by
  intro t
  induction t with
  | nil => intro ss dr p hp; simp [evictLoop] at hp
  | cons q rest ih =>
    intro ss dr p hp
    obtain ⟨k, d⟩ := q
    unfold evictLoop at hp
    by_cases h1 : (ss < so ∨ dr < doc) ∧ dr < 20000
    · rw [if_pos h1] at hp
      by_cases h2 : just ≤ k
      · rw [if_pos h2] at hp; simp at hp
      · rw [if_neg h2] at hp
        rcases List.mem_cons.mp hp with hp | hp
        · rw [hp]; omega
        · exact ih _ _ p hp
    · rw [if_neg h1] at hp; simp at hp

/-- C3: on a capped store without oplog stones, any record that
cappedDeleteAsNeeded(just) removes from the table has id strictly less
than just — the record that triggered the eviction (and anything newer)
survives. -/
theorem cappedDeleteAsNeeded_spares_recent (s : WTStore) (just k : Int) (d : Bytes)
    (hcap : s.isCapped = true) (hns : s.hasOplogStones = false)
    (hmem : (k, d) ∈ s.table)
    (hgone : (k, d) ∉ ((cappedDeleteAsNeeded s just).1).table) :
    k < just := by
  unfold cappedDeleteAsNeeded at hgone
  by_cases hneed : cappedAndNeedDelete s
  · rw [if_neg (by simp [hneed])] at hgone
    unfold cappedDeleteAsNeeded_inlock at hgone
    set cands := evictCandidates s just with hcands
    by_cases hpos : (0 : Int) < cands.length
    · rw [if_pos hpos] at hgone
      dsimp only at hgone
      obtain ⟨n, hn⟩ := evictLoop_eq_take just
        (if s.cappedMaxSize < s.dataSize then s.dataSize - s.cappedMaxSize else 0)
        (if s.cappedMaxDocs ≠ -1 ∧ s.cappedMaxDocs < s.numRecords
          then s.numRecords - s.cappedMaxDocs else 0)
        s.table 0 0
      have htake : s.table.take cands.length = cands := by
        rw [hcands]
        unfold evictCandidates
        dsimp only
        rw [hn, List.length_take, List.take_eq_take]
        omega
      have hsplit : (k, d) ∈ s.table.take cands.length ∨ (k, d) ∈ s.table.drop cands.length := by
        rw [← List.mem_append, List.take_append_drop]
        exact hmem
      rcases hsplit with hin | hin
      · rw [htake, hcands] at hin
        unfold evictCandidates at hin
        exact evictLoop_lt_just _ _ _ _ _ _ _ hin
      · exact absurd hin hgone
    · rw [if_neg hpos] at hgone
      exact absurd hmem hgone
  · rw [if_pos (by simp [hneed])] at hgone
    exact absurd hmem hgone

/-- Capped store at 5 bytes holding three 3-byte records: eviction after
inserting id 3 removes ids 1 and 2 and keeps id 3. -/
def storeCappedOverflow : WTStore :=
  { isCapped := true, isOplog := false, hasOplogStones := false, useOplogHack := false,
    cappedMaxSize := 5, cappedMaxDocs := -1, numRecords := 3, dataSize := 9,
    table := [(1, [97, 97, 97]), (2, [98, 98, 98]), (3, [99, 99, 99])],
    uncommittedDiskLocs := [], oplogHighestSeen := 3, nextIdNum := 4 }

/-- Witness for cappedDeleteAsNeeded_spares_recent: record 1 is evicted
by cappedDeleteAsNeeded(3) on storeCappedOverflow, and indeed 1 < 3. -/
theorem cappedDeleteAsNeeded_spares_recent_witness :
    ((1 : Int), ([97, 97, 97] : Bytes)) ∈ storeCappedOverflow.table ∧ (1 : Int) < 3 := by
  refine ⟨by decide, ?_⟩
  exact cappedDeleteAsNeeded_spares_recent storeCappedOverflow 3 1 [97, 97, 97]
    rfl rfl (by decide) (by decide)

/-! ## C4 — cappedAndNeedDelete -/

/-- C4 counterexample: on a capped store with no document bound
(cappedMaxDocs = -1) and nothing stored, the claimed condition
"dataSize >= cappedMaxBytes or numRecords > cappedMaxDocs" holds
(0 > -1), yet cappedAndNeedDelete returns false: the code guards the
document comparison with cappedMaxDocs != -1. -/
theorem cappedAndNeedDelete_counterexample :
    cappedAndNeedDelete storeCappedEmpty = false ∧
    storeCappedEmpty.isCapped = true ∧
    (storeCappedEmpty.cappedMaxSize ≤ storeCappedEmpty.dataSize ∨
      storeCappedEmpty.cappedMaxDocs < storeCappedEmpty.numRecords) := by decide

/-- C4 (amended): cappedAndNeedDelete returns true iff the store is
capped and (dataSize >= cappedMaxBytes, or cappedMaxDocs is set (not -1)
and numRecords > cappedMaxDocs); in particular it is false on every
non-capped store. -/
theorem cappedAndNeedDelete_correct (s : WTStore) :
    cappedAndNeedDelete s = true ↔
      (s.isCapped = true ∧
        (s.cappedMaxSize ≤ s.dataSize ∨
          (s.cappedMaxDocs ≠ -1 ∧ s.cappedMaxDocs < s.numRecords))) := by
  unfold cappedAndNeedDelete
  cases hc : s.isCapped
  · simp
  · by_cases h1 : s.cappedMaxSize ≤ s.dataSize
    · simp [h1]
    · by_cases h2 : s.cappedMaxDocs = -1 <;> simp [h1, h2]

/-! ## C5 — oversized insert into a capped store -/

/-- C5: inserting data longer than cappedMaxBytes into a capped store
fails with BadValue before any id is allocated or any engine write, so
the entire store state (table, counters, uncommitted ids, id counter)
is returned unchanged. -/
theorem insertRecord_capped_oversized (extract : Bytes → Except ErrCode Int)
    (s : WTStore) (data : Bytes)
    (hcap : s.isCapped = true) (hlen : s.cappedMaxSize < (data.length : Int)) :
    insertRecord extract s data = (s, .error .BadValue) := by
  unfold insertRecord
  rw [if_pos ⟨hcap, hlen⟩]

/-- Witness for insertRecord_capped_oversized: a 4-byte insert into a
store capped at 3 bytes. -/
theorem insertRecord_capped_oversized_witness :
    insertRecord (fun _ => .error .BadValue) storeCappedSmall [1, 2, 3, 4] =
      (storeCappedSmall, .error .BadValue) :=
  insertRecord_capped_oversized _ storeCappedSmall [1, 2, 3, 4] rfl (by decide)

/-! ## C6 — oplog update must not resize -/

/-- Reading back the key just written by tableInsert yields the new
value. -/
theorem tableLookup_tableInsert (t : Table) (key : Int) (d : Bytes) :
    tableLookup (tableInsert t key d) key = some d := by
  induction t with
  | nil => simp [tableInsert, tableLookup]
  | cons p rest ih =>
    obtain ⟨k, v⟩ := p
    unfold tableInsert
    by_cases h1 : key < k
    · simp [h1, tableLookup]
    · by_cases h2 : key = k
      · simp [h1, h2, tableLookup]
      · have hk : ¬k = key := fun h => h2 h.symm
        simp [h1, h2, tableLookup, hk, ih]

/-- Oplog store holding a single 3-byte record at id 4. -/
def storeOplogOneRecord : WTStore :=
  { isCapped := true, isOplog := true, hasOplogStones := true, useOplogHack := true,
    cappedMaxSize := 100, cappedMaxDocs := -1, numRecords := 1, dataSize := 3,
    table := [(4, [9, 9, 9])], uncommittedDiskLocs := [], oplogHighestSeen := 4, nextIdNum := 1 }

/-- C6: updating a record of an oplog store (one that owns OplogStones)
with data of a different length fails with IllegalOperation and returns
the store unchanged — table bytes and both size counters included;
updating with data of the same length succeeds, returns the same loc,
and overwrites the stored bytes in place without touching numRecords. -/
theorem updateRecord_oplog_size_change (s : WTStore) (loc : Int) (data old : Bytes)
    (hst : s.hasOplogStones = true) (hold : tableLookup s.table loc = some old) :
    (data.length ≠ old.length → updateRecord s loc data = (s, .error .IllegalOperation)) ∧
    (data.length = old.length →
      (updateRecord s loc data).2 = .ok loc ∧
      tableLookup (updateRecord s loc data).1.table loc = some data ∧
      (updateRecord s loc data).1.numRecords = s.numRecords) := by
  unfold updateRecord
  rw [hold]
  dsimp only
  constructor
  · intro hne
    rw [if_pos ⟨hst, by exact_mod_cast hne⟩]
  · intro heq
    rw [if_neg (by simp [heq])]
    dsimp only
    rw [if_pos hst]
    refine ⟨rfl, ?_, rfl⟩
    simpa [increaseDataSize] using tableLookup_tableInsert s.table loc data

/-- Witness for updateRecord_oplog_size_change: a 2-byte update of the
3-byte record is refused, a 3-byte update succeeds in place. -/
theorem updateRecord_oplog_size_change_witness :
    updateRecord storeOplogOneRecord 4 [1, 2] = (storeOplogOneRecord, .error .IllegalOperation) ∧
    (updateRecord storeOplogOneRecord 4 [1, 2, 3]).2 = .ok 4 := by
  constructor
  · exact (updateRecord_oplog_size_change storeOplogOneRecord 4 [1, 2] [9, 9, 9]
      rfl rfl).1 (by decide)
  · exact ((updateRecord_oplog_size_change storeOplogOneRecord 4 [1, 2, 3] [9, 9, 9]
      rfl rfl).2 (by decide)).1

/-! ## C7 — cursor restore over an evicted lastReturnedId -/

/-- Composite of the repositioning that restore() performs for a forward
cursor on a non-capped store followed by the advance of the next next():
land near lastReturnedId, step back if we landed above, then advance. -/
def restoredNextForward (keys : List Int) (key : Int) : Option Int :=
  match searchNear keys key with
  | none => none
  | some (landed, cmp) =>
    match (if 0 < cmp then prevKey keys landed else some landed) with
    | none => keys.head?
    | some p => nextKeyAfter keys p

/-- A key that tableLookup misses is not among the table keys. -/
theorem tableLookup_none_not_mem (t : Table) (key : Int)
    (h : tableLookup t key = none) : key ∉ tableKeys t := by
  induction t with
  | nil => simp [tableKeys]
  | cons p rest ih =>
    obtain ⟨k, d⟩ := p
    unfold tableLookup at h
    by_cases hk : k = key
    · rw [if_pos hk] at h
      exact absurd h (by simp)
    · rw [if_neg hk] at h
      simp only [tableKeys, List.map_cons, List.mem_cons, not_or]
      exact ⟨fun hke => hk hke.symm, ih h⟩

/-- search_near lands on a key of the table. -/
theorem searchNear_mem (key : Int) :
    ∀ (keys : List Int) (y c : Int), searchNear keys key = some (y, c) → y ∈ keys := by
  intro keys
  induction keys with
  | nil => intro y c h; simp [searchNear] at h
  | cons x xs ih =>
    intro y c h
    unfold searchNear at h
    by_cases h1 : key ≤ x
    · rw [if_pos h1] at h
      simp only [Option.some.injEq, Prod.mk.injEq] at h
      exact List.mem_cons.mpr (Or.inl h.1.symm)
    · rw [if_neg h1] at h
      split at h
      · rename_i r heq
        simp only [Option.some.injEq] at h
        subst h
        exact List.mem_cons.mpr (Or.inr (ih _ _ heq))
      · simp only [Option.some.injEq, Prod.mk.injEq] at h
        exact List.mem_cons.mpr (Or.inl h.1.symm)

/-- search_near reports cmp = 0 only on an exact hit. -/
theorem searchNear_exact (key : Int) :
    ∀ (keys : List Int) (y : Int), searchNear keys key = some (y, 0) → y = key := by
  intro keys
  induction keys with
  | nil => intro y h; simp [searchNear] at h
  | cons x xs ih =>
    intro y h
    unfold searchNear at h
    by_cases h1 : key ≤ x
    · rw [if_pos h1] at h
      by_cases h2 : x = key
      · rw [if_pos h2] at h
        simp only [Option.some.injEq, Prod.mk.injEq] at h
        omega
      · rw [if_neg h2] at h
        simp only [Option.some.injEq, Prod.mk.injEq] at h
        omega
    · rw [if_neg h1] at h
      split at h
      · rename_i r heq
        simp only [Option.some.injEq] at h
        subst h
        exact ih _ heq
      · simp only [Option.some.injEq, Prod.mk.injEq] at h
        omega

/-- search_near misses only on an empty table. -/
theorem searchNear_none (key : Int) :
    ∀ keys : List Int, searchNear keys key = none → keys = [] := by
  intro keys
  cases keys with
  | nil => intro _; rfl
  | cons x xs =>
    intro h
    unfold searchNear at h
    by_cases h1 : key ≤ x
    · rw [if_pos h1] at h; exact absurd h (by simp)
    · rw [if_neg h1] at h
      split at h
      · exact absurd h (by simp)
      · exact absurd h (by simp)

/-- prev lands on a key of the table. -/
theorem prevKey_mem (bound : Int) :
    ∀ (keys : List Int) (r : Int), prevKey keys bound = some r → r ∈ keys := by
  intro keys
  induction keys with
  | nil => intro r h; simp [prevKey] at h
  | cons x xs ih =>
    intro r h
    unfold prevKey at h
    by_cases h1 : x < bound
    · rw [if_pos h1] at h
      split at h
      · rename_i q heq
        simp only [Option.some.injEq] at h
        subst h
        exact List.mem_cons.mpr (Or.inr (ih _ heq))
      · simp only [Option.some.injEq] at h
        exact List.mem_cons.mpr (Or.inl h.symm)
    · rw [if_neg h1] at h
      exact absurd h (by simp)

/-- Reduction of restoredNextForward once the search_near landing is
known. -/
theorem restoredNextForward_some (keys : List Int) (key landed cmp : Int)
    (h : searchNear keys key = some (landed, cmp)) :
    restoredNextForward keys key =
      match (if 0 < cmp then prevKey keys landed else some landed) with
      | none => keys.head?
      | some p => nextKeyAfter keys p := by
  unfold restoredNextForward
  rw [h]

/-- Over a list whose members all exceed x, the first key above x is the
head. -/
theorem find?_gt_head (x : Int) (xs : List Int) (hgt : ∀ z ∈ xs, x < z) :
    xs.find? (fun y => decide (x < y)) = xs.head? := by
  cases xs with
  | nil => rfl
  | cons z zs =>
    rw [List.find?_cons]
    have hz : decide (x < z) = true := decide_eq_true (hgt z (List.mem_cons_self z zs))
    rw [hz]
    rfl

/-- The first key above a bound that is itself below every key of the
list is the head of the list. -/
theorem nextKeyAfter_cons_self (x : Int) (xs : List Int) (hgt : ∀ z ∈ xs, x < z) :
    nextKeyAfter (x :: xs) x = xs.head? := by
  unfold nextKeyAfter
  rw [List.find?_cons, decide_eq_false (lt_irrefl x)]
  exact find?_gt_head x xs hgt

/-- Skipping a head key that is at or below the bound does not change
the first key above the bound. -/
theorem nextKeyAfter_cons_le (x bound : Int) (xs : List Int) (hxb : x ≤ bound) :
    nextKeyAfter (x :: xs) bound = nextKeyAfter xs bound := by
  unfold nextKeyAfter
  rw [List.find?_cons, decide_eq_false (not_lt.mpr hxb)]

/-- On a sorted table the forward restore-then-advance lands exactly on
the first key above lastReturnedId, whether or not that id is still
present. -/
theorem restoredNextForward_eq (key : Int) :
    ∀ keys : List Int, List.Pairwise (· < ·) keys →
      restoredNextForward keys key = nextKeyAfter keys key := by
  intro keys
  induction keys with
  | nil => intro _; rfl
  | cons x xs ih =>
    intro hp
    have hxlt : ∀ z ∈ xs, x < z := (List.pairwise_cons.mp hp).1
    have hpxs : List.Pairwise (· < ·) xs := (List.pairwise_cons.mp hp).2
    by_cases h1 : key ≤ x
    · have hfull : searchNear (x :: xs) key = some (x, if x = key then 0 else 1) := by
        unfold searchNear; rw [if_pos h1]
      by_cases h2 : x = key
      · subst h2
        rw [restoredNextForward_some (x :: xs) x x 0 (by rw [hfull, if_pos rfl]),
          if_neg (lt_irrefl 0)]
      · have hkx : key < x := lt_of_le_of_ne h1 (fun he => h2 he.symm)
        have hprev : prevKey (x :: xs) x = none := by
          unfold prevKey; rw [if_neg (lt_irrefl x)]
        rw [restoredNextForward_some (x :: xs) key x 1 (by rw [hfull, if_neg h2]),
          if_pos zero_lt_one, hprev]
        show (x :: xs).head? = nextKeyAfter (x :: xs) key
        unfold nextKeyAfter
        rw [List.find?_cons, decide_eq_true hkx]
        rfl
    · have hxk : x < key := lt_of_not_le h1
      have hnx : nextKeyAfter (x :: xs) key = nextKeyAfter xs key :=
        nextKeyAfter_cons_le x key xs hxk.le
      cases hsn : searchNear xs key with
      | none =>
        have hxs : xs = [] := searchNear_none key xs hsn
        subst hxs
        have hfull : searchNear [x] key = some (x, -1) := by
          unfold searchNear; rw [if_neg h1, hsn]
        rw [restoredNextForward_some [x] key x (-1) hfull, if_neg (by omega), hnx]
        show nextKeyAfter [x] x = nextKeyAfter ([] : List Int) key
        rw [nextKeyAfter_cons_self x [] (by simp)]
        rfl
      | some r =>
        obtain ⟨y, c⟩ := r
        have hy : y ∈ xs := searchNear_mem key xs y c hsn
        have hxy : x < y := hxlt y hy
        have hfull : searchNear (x :: xs) key = some (y, c) := by
          unfold searchNear; rw [if_neg h1, hsn]
        have hih : restoredNextForward xs key = nextKeyAfter xs key := ih hpxs
        by_cases hc : 0 < c
        · have hprevcons : prevKey (x :: xs) y =
              (match prevKey xs y with
               | some q => some q
               | none => some x) := by
            conv_lhs => rw [prevKey]
            rw [if_pos hxy]
          cases hpk : prevKey xs y with
          | none =>
            have hxs_val : restoredNextForward xs key = xs.head? := by
              rw [restoredNextForward_some xs key y c hsn, if_pos hc, hpk]
            rw [restoredNextForward_some (x :: xs) key y c hfull, if_pos hc,
              hprevcons, hpk]
            show nextKeyAfter (x :: xs) x = nextKeyAfter (x :: xs) key
            rw [nextKeyAfter_cons_self x xs hxlt, hnx, ← hxs_val, hih]
          | some q =>
            have hq : q ∈ xs := prevKey_mem y xs q hpk
            have hxq : x < q := hxlt q hq
            have hxs_val : restoredNextForward xs key = nextKeyAfter xs q := by
              rw [restoredNextForward_some xs key y c hsn, if_pos hc, hpk]
            rw [restoredNextForward_some (x :: xs) key y c hfull, if_pos hc,
              hprevcons, hpk]
            show nextKeyAfter (x :: xs) q = nextKeyAfter (x :: xs) key
            rw [nextKeyAfter_cons_le x q xs hxq.le, hnx, ← hxs_val, hih]
        · have hxs_val : restoredNextForward xs key = nextKeyAfter xs y := by
            rw [restoredNextForward_some xs key y c hsn, if_neg hc]
          rw [restoredNextForward_some (x :: xs) key y c hfull, if_neg hc]
          show nextKeyAfter (x :: xs) y = nextKeyAfter (x :: xs) key
          rw [nextKeyAfter_cons_le x y xs hxy.le, hnx, ← hxs_val, hih]

/-- Reduction of restore when search_near misses entirely. -/
theorem restore_miss_eq (s : WTStore) (cur : CursorState)
    (he : cur.eof = false) (hl : cur.lastReturnedId ≠ 0)
    (h : searchNear (tableKeys s.table) cur.lastReturnedId = none) :
    restore s cur = ({ cur with eof := true }, !s.isCapped) := by
  unfold restore
  rw [if_neg (by simp [he]), if_neg hl, h]

/-- Reduction of restore once the search_near landing is known. -/
theorem restore_landed_eq (s : WTStore) (cur : CursorState) (landed cmp : Int)
    (he : cur.eof = false) (hl : cur.lastReturnedId ≠ 0)
    (h : searchNear (tableKeys s.table) cur.lastReturnedId = some (landed, cmp)) :
    restore s cur =
      (if cmp = 0 then ({ cur with position := some landed }, true)
       else if s.isCapped then ({ cur with eof := true }, false)
       else if cur.forward ∧ 0 < cmp then
         ({ cur with position := prevKey (tableKeys s.table) landed }, true)
       else if ¬cur.forward ∧ cmp < 0 then
         ({ cur with position := nextKeyAfter (tableKeys s.table) landed }, true)
       else ({ cur with position := some landed }, true)) := by
  unfold restore
  rw [if_neg (by simp [he]), if_neg hl, h]

/-- Reduction of restoredNextForward when search_near misses. -/
theorem restoredNextForward_miss (keys : List Int) (key : Int)
    (h : searchNear keys key = none) : restoredNextForward keys key = none := by
  unfold restoredNextForward
  rw [h]

/-- restore on a non-capped store always reports success. -/
theorem restore_noncapped_true (s : WTStore) (cur : CursorState)
    (hcap : s.isCapped = false) : (restore s cur).2 = true := by
  by_cases he : cur.eof = true
  · unfold restore; rw [if_pos he]
  · have he2 : cur.eof = false := by simpa using he
    by_cases hl : cur.lastReturnedId = 0
    · unfold restore; rw [if_neg (by simp [he2]), if_pos hl]
    · cases hsn : searchNear (tableKeys s.table) cur.lastReturnedId with
      | none => rw [restore_miss_eq s cur he2 hl hsn, hcap]; rfl
      | some r =>
        obtain ⟨landed, cmp⟩ := r
        rw [restore_landed_eq s cur landed cmp he2 hl hsn]
        by_cases hc0 : cmp = 0
        · rw [if_pos hc0]
        · rw [if_neg hc0, if_neg (by simp [hcap])]
          by_cases hfw : cur.forward ∧ 0 < cmp
          · rw [if_pos hfw]
          · rw [if_neg hfw]
            by_cases hrv : ¬cur.forward ∧ cmp < 0
            · rw [if_pos hrv]
            · rw [if_neg hrv]

/-- restore on a capped store whose lastReturnedId no longer exists
reports failure and parks the cursor at eof. -/
theorem restore_capped_miss (s : WTStore) (cur : CursorState)
    (he : cur.eof = false) (hl : cur.lastReturnedId ≠ 0)
    (hcap : s.isCapped = true)
    (hmiss : tableLookup s.table cur.lastReturnedId = none) :
    (restore s cur).2 = false ∧ (restore s cur).1.eof = true := by
  have hnotmem := tableLookup_none_not_mem _ _ hmiss
  cases hsn : searchNear (tableKeys s.table) cur.lastReturnedId with
  | none =>
    rw [restore_miss_eq s cur he hl hsn, hcap]
    exact ⟨rfl, rfl⟩
  | some r =>
    obtain ⟨landed, cmp⟩ := r
    have hc0 : cmp ≠ 0 := by
      intro h0
      subst h0
      have hlk : landed = cur.lastReturnedId := searchNear_exact _ _ _ hsn
      have hm : landed ∈ tableKeys s.table := searchNear_mem _ _ _ _ hsn
      rw [hlk] at hm
      exact hnotmem hm
    rw [restore_landed_eq s cur landed cmp he hl hsn, if_neg hc0, if_pos hcap]
    exact ⟨rfl, rfl⟩

/-- After restoring a live forward cursor on a non-capped store, the
next advance target is the restoredNextForward composite. -/
theorem restore_forward_noncapped_next (s : WTStore) (cur : CursorState)
    (he : cur.eof = false) (hl : cur.lastReturnedId ≠ 0)
    (hcap : s.isCapped = false) (hf : cur.forward = true) :
    cursorNextKeyForward s (restore s cur).1 =
      restoredNextForward (tableKeys s.table) cur.lastReturnedId := by
  cases hsn : searchNear (tableKeys s.table) cur.lastReturnedId with
  | none =>
    rw [restore_miss_eq s cur he hl hsn, restoredNextForward_miss _ _ hsn]
    simp [cursorNextKeyForward]
  | some r =>
    obtain ⟨landed, cmp⟩ := r
    rw [restore_landed_eq s cur landed cmp he hl hsn,
      restoredNextForward_some _ _ landed cmp hsn]
    by_cases hc0 : cmp = 0
    · subst hc0
      rw [if_pos rfl, if_neg (lt_irrefl 0)]
      unfold cursorNextKeyForward
      rw [if_neg (by simp [he])]
    · rw [if_neg hc0, if_neg (by simp [hcap])]
      by_cases hcpos : 0 < cmp
      · rw [if_pos ⟨hf, hcpos⟩, if_pos hcpos]
        unfold cursorNextKeyForward
        rw [if_neg (by simp [he])]
      · rw [if_neg (fun h => hcpos h.2), if_neg (by simp [hf]), if_neg hcpos]
        unfold cursorNextKeyForward
        rw [if_neg (by simp [he])]

/-- C7: a cursor with a non-null lastReturnedId that is not at eof and
whose last returned record no longer exists in the table: on a capped
store restore() returns false and the cursor becomes eof — it never
silently repositions past the missing record — while on a non-capped
store restore() returns true, and (forward case, sorted table) the
cursor is repositioned so that the next advance lands on the first key
after lastReturnedId, i.e. the next unseen record. -/
theorem restore_capped_no_holes (s : WTStore) (cur : CursorState)
    (he : cur.eof = false) (hl : cur.lastReturnedId ≠ 0) :
    (s.isCapped = true → tableLookup s.table cur.lastReturnedId = none →
      (restore s cur).2 = false ∧ (restore s cur).1.eof = true) ∧
    (s.isCapped = false →
      (restore s cur).2 = true ∧
      (cur.forward = true → List.Pairwise (· < ·) (tableKeys s.table) →
        cursorNextKeyForward s (restore s cur).1 =
          nextKeyAfter (tableKeys s.table) cur.lastReturnedId)) := by
  refine ⟨fun hcap hmiss => restore_capped_miss s cur he hl hcap hmiss,
    fun hcap => ⟨restore_noncapped_true s cur hcap, fun hf hsorted => ?_⟩⟩
  rw [restore_forward_noncapped_next s cur he hl hcap hf,
    restoredNextForward_eq _ _ hsorted]

/-- Capped store holding ids 3 and 8 (id 5 has been evicted). -/
def storeRestoreCapped : WTStore :=
  { isCapped := true, isOplog := false, hasOplogStones := false, useOplogHack := false,
    cappedMaxSize := 100, cappedMaxDocs := -1, numRecords := 2, dataSize := 2,
    table := [(3, [1]), (8, [1])], uncommittedDiskLocs := [], oplogHighestSeen := 8,
    nextIdNum := 9 }

/-- Non-capped store holding ids 3 and 8 (id 5 has been deleted). -/
def storeRestorePlain : WTStore :=
  { isCapped := false, isOplog := false, hasOplogStones := false, useOplogHack := false,
    cappedMaxSize := -1, cappedMaxDocs := -1, numRecords := 2, dataSize := 2,
    table := [(3, [1]), (8, [1])], uncommittedDiskLocs := [], oplogHighestSeen := 8,
    nextIdNum := 9 }

/-- Forward cursor whose last returned record had id 5. -/
def cursorAt5 : CursorState :=
  { forward := true, eof := false, lastReturnedId := 5, position := none,
    readUntilForOplog := 0 }

/-- Witness for restore_capped_no_holes: restoring over the missing id 5
fails on the capped store and succeeds on the plain one, where the next
advance lands on id 8. -/
theorem restore_capped_no_holes_witness :
    (restore storeRestoreCapped cursorAt5).2 = false ∧
    (restore storeRestorePlain cursorAt5).2 = true ∧
    cursorNextKeyForward storeRestorePlain (restore storeRestorePlain cursorAt5).1 = some 8 := by
  refine ⟨?_, ?_, ?_⟩
  · exact ((restore_capped_no_holes storeRestoreCapped cursorAt5 rfl
      (by decide)).1 rfl (by decide)).1
  · exact ((restore_capped_no_holes storeRestorePlain cursorAt5 rfl
      (by decide)).2 rfl).1
  · have h := ((restore_capped_no_holes storeRestorePlain cursorAt5 rfl
      (by decide)).2 rfl).2 rfl (by decide)
    rw [h]
    decide

/-! ## C8 — oplog stone sampling counts -/

/-- C8 counterexample: with numRecords = 15 and estRecordsPerStone = 10,
wholeStones = 1, so the claim predicts samplesPerStone * wholeStones =
10 draws; the code computes 10 * 15 / 10 = 15 draws (the product is
divided, not wholeStones), and a 14-sample stream — more than the
claimed count — makes it fall back to scanning (none). -/
theorem sampling_count_counterexample :
    numSamplesDrawn 15 10 = 15 ∧
    kRandomSamplesPerStone * wholeStones 15 10 = 10 ∧
    calculateStonesBySampling 15 1500 10 1000
      ((List.range 14).map (fun n => (n : Int))) = none := by decide

/-- C8 (amended): the number of samples drawn is
(samplesPerStone * numRecords) / estRecordsPerStone with integer
division applied to the product — at least, but not always equal to,
samplesPerStone * wholeStones — and, given that many samples, sampling
succeeds, produces wholeStones stones, and the i-th stone's lastRecord
is the (samplesPerStone * i - 1)-th sorted sample (i counted from 1,
i.e. index 10 * (j + 1) - 1 for the zero-based stone j). -/
theorem calculateStonesBySampling_boundaries
    (nR dS est eB : Int) (samples : List Int)
    (hn : 0 ≤ nR) (he : 0 < est)
    (hs : numSamplesDrawn nR est ≤ (samples.length : Int)) :
    kRandomSamplesPerStone * wholeStones nR est ≤ numSamplesDrawn nR est ∧
    ∃ stones leftRecs leftBytes,
      calculateStonesBySampling nR dS est eB samples = some (stones, leftRecs, leftBytes) ∧
      stones.length = (wholeStones nR est).toNat ∧
      ∀ j : Nat, j < (wholeStones nR est).toNat →
        stones[j]? = some
          { records := est,
            bytes := eB,
            lastRecord := (sortInts (samples.take (numSamplesDrawn nR est).toNat)).getD
              (10 * (j + 1) - 1) 0 } := by
  refine ⟨?_, ?_⟩
  · unfold wholeStones numSamplesDrawn kRandomSamplesPerStone
    rw [Int.tdiv_eq_ediv hn he.le, Int.tdiv_eq_ediv (by omega) he.le,
      Int.le_ediv_iff_mul_le he]
    have h2 := Int.ediv_mul_le nR (ne_of_gt he)
    have h3 : 10 * (nR / est) * est = 10 * (nR / est * est) := by ring
    rw [h3]
    linarith
  · unfold calculateStonesBySampling
    dsimp only
    rw [if_neg (not_lt.mpr hs)]
    refine ⟨_, _, _, rfl, by simp, ?_⟩
    intro j hj
    rw [List.getElem?_map, List.getElem?_range hj]
    unfold kRandomSamplesPerStone
    dsimp only [Option.map]
    have hidx : ((10 : Int) * ((j : Int) + 1) - 1).toNat = 10 * (j + 1) - 1 := by omega
    rw [hidx]

/-- Witness for calculateStonesBySampling_boundaries: numRecords = 15,
estRecordsPerStone = 10, 15 samples 0..14: one stone is produced and its
lastRecord is the sorted sample at index 9, namely 9. -/
theorem calculateStonesBySampling_boundaries_witness :
    ∃ stones leftRecs leftBytes,
      calculateStonesBySampling 15 1500 10 1000
          ((List.range 15).map (fun n => (n : Int))) = some (stones, leftRecs, leftBytes) ∧
      stones.length = 1 ∧ stones[0]? = some { records := 10, bytes := 1000, lastRecord := 9 } := by
  obtain ⟨-, stones, leftRecs, leftBytes, heq, hlen, hidx⟩ :=
    calculateStonesBySampling_boundaries 15 1500 10 1000
      ((List.range 15).map (fun n => (n : Int))) (by decide) (by decide) (by decide)
  refine ⟨stones, leftRecs, leftBytes, heq, ?_, ?_⟩
  · rw [hlen]; decide
  · have h0 := hidx 0 (by decide)
    rw [h0]; decide

/-! ## C9 — truncate of an empty store -/

/-- C9: truncate on a store whose table is empty returns OK, leaves the
whole store (counters included) unchanged and registers no clear-stones
commit hook, oplog stones or not: the code returns as soon as the first
cursor advance reports WT_NOTFOUND. -/
theorem truncate_empty_noop (s : WTStore) (h : s.table = []) :
    truncate s = (s, .ok (), false) := by
  unfold truncate
  rw [h]

/-- Witness for truncate_empty_noop on an empty store that owns oplog
stones. -/
theorem truncate_empty_noop_witness :
    truncate storeOplogEmpty = (storeOplogEmpty, .ok (), false) :=
  truncate_empty_noop storeOplogEmpty rfl

/-! ## C10 — point lookups on a missing id -/

/-- C10: on an id with no stored record, findRecord reports false (none:
the out-parameter is never written) while dataFor fails massert 28556;
the two point lookups diverge exactly as claimed, and neither touches
the store (both are modelled as pure functions of it). -/
theorem findRecord_dataFor_missing (s : WTStore) (loc : Int)
    (h : tableLookup s.table loc = none) :
    findRecord s loc = none ∧ dataFor s loc = .error 28556 := by
  unfold findRecord dataFor
  rw [h]
  exact ⟨rfl, rfl⟩

/-- Witness for findRecord_dataFor_missing at id 42 of an empty store. -/
theorem findRecord_dataFor_missing_witness :
    findRecord storeOplogEmpty 42 = none ∧ dataFor storeOplogEmpty 42 = .error 28556 :=
  findRecord_dataFor_missing storeOplogEmpty 42 rfl

end WTRS
